import Mathlib

/-!
Shallow embedding of the chikage linear-algebra library (rotor core and its
collaborators), translated from `src/rot/rot3f64.rs`, `src/vec/vec3f64.rs`
and the Matrix4/Vector4 interface used by `rotation_mat`.  The `f64`
components are modelled by real numbers; the separate `FP` type at the end
models IEEE-754 special values for the degenerate-input behaviour.
Rust's in-place mutating methods (`invert`, `rotate_vec`, `append`,
`normalize`) are modelled as state-passing functions returning the new value.
-/

namespace Chikage

/-- The 3-component vector type `Vec3f64` (fields `x`, `y`, `z`). -/
@[ext]
structure Vec3f64 where
  x : ℝ
  y : ℝ
  z : ℝ

namespace Vec3f64

/-- Constructor `Vec3f64::new`. -/
def new (x y z : ℝ) : Vec3f64 := ⟨x, y, z⟩

/-- Method `Vec3f64::magnitude`: `(x*x + y*y + z*z).sqrt()`. -/
noncomputable def magnitude (v : Vec3f64) : ℝ :=
  Real.sqrt (v.x * v.x + v.y * v.y + v.z * v.z)

/-- Method `Vec3f64::dot`. -/
def dot (v other : Vec3f64) : ℝ :=
  v.x * other.x + v.y * other.y + v.z * other.z

/-- The `Add` impl for `Vec3f64` (component-wise). -/
def add (v rhs : Vec3f64) : Vec3f64 :=
  ⟨v.x + rhs.x, v.y + rhs.y, v.z + rhs.z⟩

/-- The `Div<f64>` impl for `Vec3f64` (divide each component by the scalar). -/
noncomputable def div (v : Vec3f64) (scalar : ℝ) : Vec3f64 :=
  ⟨v.x / scalar, v.y / scalar, v.z / scalar⟩

end Vec3f64

/-- The 4-component vector `Vec4f64` with the four-scalar constructor used by
`Rot3f64::rotation_mat`.
Modelled from the spec: `rotation_mat` calls `Vec4f64::new(x, y, z, w)` with
four scalars, a constructor shape absent from the source files (the
array-backed draft in `src/vec/vec4f64.rs` takes a single `[f64; 4]`); the
spec describes Vector4 as a plain 4-component float value type. -/
structure Vec4f64 where
  x : ℝ
  y : ℝ
  z : ℝ
  w : ℝ

/-- Constructor `Vec4f64::new(x, y, z, w)` of the named-field design. -/
def Vec4f64.new (x y z w : ℝ) : Vec4f64 := ⟨x, y, z, w⟩

/-- The 4x4 matrix `Mat4f64`, stored as four rows (row-major).
Modelled from the spec: `rotation_mat` calls `Mat4f64::new_row_major` with
four `Vec4f64` rows, a constructor absent from the source files (the
array-backed draft in `src/mat/mat4f64.rs` has `new(rows: [[f64; 4]; 4])`);
the spec says Matrix4 is a 4x4 float matrix, logically row-major,
constructed from rows. -/
structure Mat4f64 where
  r0 : Vec4f64
  r1 : Vec4f64
  r2 : Vec4f64
  r3 : Vec4f64

/-- Constructor `Mat4f64::new_row_major(row0, row1, row2, row3)`. -/
def Mat4f64.new_row_major (r0 r1 r2 r3 : Vec4f64) : Mat4f64 := ⟨r0, r1, r2, r3⟩

/-- Column `j = 0` of the 3x3 block of a `Mat4f64` as a `Vec3f64`. -/
def Mat4f64.col0 (m : Mat4f64) : Vec3f64 := ⟨m.r0.x, m.r1.x, m.r2.x⟩

/-- Column `j = 1` of the 3x3 block of a `Mat4f64` as a `Vec3f64`. -/
def Mat4f64.col1 (m : Mat4f64) : Vec3f64 := ⟨m.r0.y, m.r1.y, m.r2.y⟩

/-- Column `j = 2` of the 3x3 block of a `Mat4f64` as a `Vec3f64`. -/
def Mat4f64.col2 (m : Mat4f64) : Vec3f64 := ⟨m.r0.z, m.r1.z, m.r2.z⟩

/-- The rotor type `Rot3f64`: scalar part `s` and bivector parts
`xy`, `yz`, `zx`. -/
@[ext]
structure Rot3f64 where
  s : ℝ
  xy : ℝ
  yz : ℝ
  zx : ℝ

namespace Rot3f64

open Classical

/-- Constructor `Rot3f64::identity`. -/
def identity : Rot3f64 := ⟨1, 0, 0, 0⟩

/-- Constructor `Rot3f64::new(a, b)` (the debug-only magnitude assertion is
a no-op in release builds and does not affect the returned value). -/
def new (a b : Vec3f64) : Rot3f64 :=
  { s := b.x * a.x + b.y * a.y + b.z * a.z
    xy := b.x * a.y - b.y * a.x
    yz := b.y * a.z - b.z * a.y
    zx := b.z * a.x - b.x * a.z }

/-- Constructor `Rot3f64::new_exact(a, b)`.
Modelled from the spec: the antiparallel branch of the Rust code calls
`a.perpendicular()`, a `Vec3f64` method absent from the source files; the
spec says it returns an arbitrary, implementation-defined vector
perpendicular to `a`, substituted for the (undefined) bisector.  The
unspecified choice is modelled as an explicit function parameter `perp`;
any function whose value at `a` is a unit vector orthogonal to `a`
satisfies the spec's contract for that call. -/
noncomputable def new_exact (perp : Vec3f64 → Vec3f64) (a b : Vec3f64) : Rot3f64 :=
  if -1.00001 ≤ a.dot b ∧ a.dot b < -0.99999 then
    Rot3f64.new a (perp a)
  else
    let a_plus_b := a.add b
    Rot3f64.new a (a_plus_b.div a_plus_b.magnitude)

/-- Method `Rot3f64::invert` (state-passing form of the in-place mutation). -/
def invert (r : Rot3f64) : Rot3f64 :=
  { r with xy := -r.xy, yz := -r.yz, zx := -r.zx }

/-- Method `Rot3f64::inverted` (copies, then calls `invert`). -/
def inverted (r : Rot3f64) : Rot3f64 := r.invert

/-- Method `Rot3f64::rotate_vec` (state-passing form; returns the rotated
vector that the Rust code writes back into `v`). -/
def rotate_vec (r : Rot3f64) (v : Vec3f64) : Vec3f64 :=
  let tx := r.s * v.x + r.xy * v.y - r.zx * v.z
  let ty := r.s * v.y - r.xy * v.x + r.yz * v.z
  let tz := r.s * v.z - r.yz * v.y + r.zx * v.x
  let txyz := r.xy * v.z + r.yz * v.x + r.zx * v.y
  { x := tx * r.s + ty * r.xy - tz * r.zx + txyz * r.yz
    y := ty * r.s - tx * r.xy + tz * r.yz + txyz * r.zx
    z := tz * r.s + tx * r.zx - ty * r.yz + txyz * r.xy }

/-- Method `Rot3f64::rotated_vec` (copies `v`, then calls `rotate_vec`). -/
def rotated_vec (r : Rot3f64) (v : Vec3f64) : Vec3f64 := r.rotate_vec v

/-- Method `Rot3f64::append` (state-passing form; `self` is the receiver,
`r` the argument). -/
def append (self r : Rot3f64) : Rot3f64 :=
  { s := self.s * r.s - self.xy * r.xy - self.yz * r.yz - self.zx * r.zx
    xy := self.s * r.xy + self.xy * r.s - self.yz * r.zx + self.zx * r.yz
    yz := self.s * r.yz + self.yz * r.s + self.xy * r.zx - self.zx * r.xy
    zx := self.s * r.zx + self.zx * r.s - self.xy * r.yz + self.yz * r.xy }

/-- Method `Rot3f64::appended` (copies, then calls `append`). -/
def appended (self : Rot3f64) (r : Rot3f64) : Rot3f64 := self.append r

/-- The quantity `s*s + xy*xy + yz*yz + zx*zx` computed by
`Rot3f64::normalize` (the squared magnitude of the rotor). -/
def mag_sqrd (r : Rot3f64) : ℝ :=
  r.s * r.s + r.xy * r.xy + r.yz * r.yz + r.zx * r.zx

/-- Method `Rot3f64::normalize` (state-passing form). -/
noncomputable def normalize (r : Rot3f64) : Rot3f64 :=
  let mag := Real.sqrt r.mag_sqrd
  { s := r.s / mag, xy := r.xy / mag, yz := r.yz / mag, zx := r.zx / mag }

/-- Method `Rot3f64::rotation_mat`. -/
def rotation_mat (r : Rot3f64) : Mat4f64 :=
  let new_x := r.rotated_vec ⟨1, 0, 0⟩
  let new_y := r.rotated_vec ⟨0, 1, 0⟩
  let new_z := r.rotated_vec ⟨0, 0, 1⟩
  Mat4f64.new_row_major
    (Vec4f64.new new_x.x new_y.x new_z.x 0)
    (Vec4f64.new new_x.y new_y.y new_z.y 0)
    (Vec4f64.new new_x.z new_y.z new_z.z 0)
    (Vec4f64.new 0 0 0 1)

end Rot3f64

/-!
IEEE-754 semantics for the degenerate-input behaviour.  The real-valued
embedding above has no NaN, so the two `normalize` routines are also
translated over a small model of `f64` that carries the special values: a
float is NaN, an infinity, or a (finite) real value.  Only the operations
those routines use (`+`, `*`, `/`, `sqrt`) are modelled, following the
IEEE-754 rules the Rust `f64` operators implement: NaN propagates through
everything, `0.0 / 0.0` and `(-1.0).sqrt()` are NaN, `x / 0.0` for
`x ≠ 0` is a signed infinity.
-/

/-- A `f64` value in the special-value model: NaN, ±∞, or a finite real. -/
inductive FP where
  | nan : FP
  | inf : FP
  | ninf : FP
  | val : ℝ → FP

namespace FP

open Classical

/-- IEEE-754 addition on the model. -/
def add : FP → FP → FP
  | nan, _ => nan
  | _, nan => nan
  | inf, ninf => nan
  | ninf, inf => nan
  | inf, _ => inf
  | _, inf => inf
  | ninf, _ => ninf
  | _, ninf => ninf
  | val a, val b => val (a + b)

/-- IEEE-754 multiplication on the model. -/
noncomputable def mul : FP → FP → FP
  | nan, _ => nan
  | _, nan => nan
  | inf, inf => inf
  | inf, ninf => ninf
  | ninf, inf => ninf
  | ninf, ninf => inf
  | inf, val b => if b = 0 then nan else if 0 < b then inf else ninf
  | val a, inf => if a = 0 then nan else if 0 < a then inf else ninf
  | ninf, val b => if b = 0 then nan else if 0 < b then ninf else inf
  | val a, ninf => if a = 0 then nan else if 0 < a then ninf else inf
  | val a, val b => val (a * b)

/-- IEEE-754 division on the model (signed zeros are not distinguished;
the dividends arising in the claims are exact zeros, for which `0 / 0`
is NaN). -/
noncomputable def div : FP → FP → FP
  | nan, _ => nan
  | _, nan => nan
  | inf, inf => nan
  | inf, ninf => nan
  | ninf, inf => nan
  | ninf, ninf => nan
  | inf, val b => if 0 ≤ b then inf else ninf
  | ninf, val b => if 0 ≤ b then ninf else inf
  | val _, inf => val 0
  | val _, ninf => val 0
  | val a, val b =>
      if b = 0 then (if a = 0 then nan else if 0 < a then inf else ninf)
      else val (a / b)

/-- IEEE-754 square root on the model. -/
noncomputable def sqrt : FP → FP
  | nan => nan
  | inf => inf
  | ninf => nan
  | val a => if a < 0 then nan else val (Real.sqrt a)

end FP

/-- The `Vec3f64` components in the special-value model. -/
structure Vec3f64F where
  x : FP
  y : FP
  z : FP

namespace Vec3f64F

/-- Method `Vec3f64::magnitude` over the special-value model:
`(x*x + y*y + z*z).sqrt()`. -/
noncomputable def magnitude (v : Vec3f64F) : FP :=
  (((v.x.mul v.x).add (v.y.mul v.y)).add (v.z.mul v.z)).sqrt

/-- Method `Vec3f64::normalize` over the special-value model: each
component is divided by the magnitude. -/
noncomputable def normalize (v : Vec3f64F) : Vec3f64F :=
  let mag := v.magnitude
  ⟨v.x.div mag, v.y.div mag, v.z.div mag⟩

end Vec3f64F

/-- The `Rot3f64` components in the special-value model. -/
structure Rot3f64F where
  s : FP
  xy : FP
  yz : FP
  zx : FP

namespace Rot3f64F

/-- Method `Rot3f64::normalize` over the special-value model:
`mag_sqrd = s*s + xy*xy + yz*yz + zx*zx`, `mag = mag_sqrd.sqrt()`, then
each component is divided by `mag`. -/
noncomputable def normalize (r : Rot3f64F) : Rot3f64F :=
  let mag_sqrd := (((r.s.mul r.s).add (r.xy.mul r.xy)).add
    (r.yz.mul r.yz)).add (r.zx.mul r.zx)
  let mag := mag_sqrd.sqrt
  ⟨r.s.div mag, r.xy.div mag, r.yz.div mag, r.zx.div mag⟩

end Rot3f64F

/-!
Theorems.  Helper lemmas come first, then one theorem per claim of the
specification (with a closed witness instance for each theorem that has a
hypothesis).
-/

open Rot3f64

/-- Closed form for rotating the first construction vector `a` by the rotor
`new a m`: the result is `(a·a) * (2 (m·a) m − (m·m) a)`.  A pure
polynomial identity of the source formulas, used for the `new_exact`
claims. -/
theorem rotate_new_formula (a m : Vec3f64) :
    (Rot3f64.new a m).rotated_vec a =
      ⟨a.dot a * (2 * (m.dot a) * m.x - (m.dot m) * a.x),
       a.dot a * (2 * (m.dot a) * m.y - (m.dot m) * a.y),
       a.dot a * (2 * (m.dot a) * m.z - (m.dot m) * a.z)⟩ := by
  simp only [Rot3f64.new, Rot3f64.rotated_vec, Rot3f64.rotate_vec, Vec3f64.dot]
  ext <;> ring

/-- Dividing the second construction vector by a scalar divides every
component of the resulting rotor by that scalar. -/
theorem new_div_eq (a u : Vec3f64) (c : ℝ) :
    Rot3f64.new a (u.div c) =
      ⟨(Rot3f64.new a u).s / c, (Rot3f64.new a u).xy / c,
       (Rot3f64.new a u).yz / c, (Rot3f64.new a u).zx / c⟩ := by
  simp only [Rot3f64.new, Vec3f64.div]
  ext <;> ring

/-- Dividing every rotor component by a scalar divides the rotated vector
by the square of that scalar (the sandwich product is quadratic in the
rotor). -/
theorem rotate_div_eq (r : Rot3f64) (c : ℝ) (v : Vec3f64) :
    Rot3f64.rotated_vec ⟨r.s / c, r.xy / c, r.yz / c, r.zx / c⟩ v =
      ⟨(r.rotated_vec v).x / (c * c), (r.rotated_vec v).y / (c * c),
       (r.rotated_vec v).z / (c * c)⟩ := by
  simp only [Rot3f64.rotated_vec, Rot3f64.rotate_vec]
  ext <;> ring

set_option maxHeartbeats 1000000 in
/-- What `append` actually does to later rotations: rotating with
`r1.appended r2` equals rotating with `r2` FIRST and then with `r1` —
the argument's rotation is applied first, for all rotors and vectors
(a pure polynomial identity of the source formulas). -/
theorem append_composes_argument_first (r1 r2 : Rot3f64) (v : Vec3f64) :
    (r1.appended r2).rotated_vec v = r1.rotated_vec (r2.rotated_vec v) := by
  simp only [appended, append, rotated_vec, rotate_vec]
  ext <;> ring

/-- Claim C1 (refuted, code bug): at the unit rotors `r1 = ⟨3/5, 4/5, 0, 0⟩`
and `r2 = ⟨3/5, 0, 4/5, 0⟩` and the vector `(1,0,0)`, rotating with the
composed rotor `r1.appended r2` equals rotating with `r2` first and then
`r1`, and is NOT equal to rotating with `r1` first and then `r2` as the
claim (and the source doc comment "First self then r") states. -/
theorem append_order_failing_input :
    (Rot3f64.appended ⟨3/5, 4/5, 0, 0⟩ ⟨3/5, 0, 4/5, 0⟩).rotated_vec ⟨1, 0, 0⟩ =
      Rot3f64.rotated_vec ⟨3/5, 4/5, 0, 0⟩
        (Rot3f64.rotated_vec ⟨3/5, 0, 4/5, 0⟩ ⟨1, 0, 0⟩) ∧
    (Rot3f64.appended ⟨3/5, 4/5, 0, 0⟩ ⟨3/5, 0, 4/5, 0⟩).rotated_vec ⟨1, 0, 0⟩ ≠
      Rot3f64.rotated_vec ⟨3/5, 0, 4/5, 0⟩
        (Rot3f64.rotated_vec ⟨3/5, 4/5, 0, 0⟩ ⟨1, 0, 0⟩) := by
  constructor
  · simp only [appended, append, rotated_vec, rotate_vec]
    ext <;> norm_num
  · intro h
    have hy := congrArg Vec3f64.y h
    simp only [appended, append, rotated_vec, rotate_vec] at hy
    norm_num at hy

/-- Claim C2: for unit vectors `a`, `b` (dot products with themselves equal
to 1) that do not satisfy the antiparallel test of the source
(`-1.00001 ≤ a·b < -0.99999`), the rotor `new_exact a b` rotates `a`
exactly onto `b` — a rotation by the single angle between them. -/
theorem new_exact_single_angle (perp : Vec3f64 → Vec3f64) (a b : Vec3f64)
    (ha : a.dot a = 1) (hb : b.dot b = 1)
    (hnot : ¬(-1.00001 ≤ a.dot b ∧ a.dot b < -0.99999)) :
    (Rot3f64.new_exact perp a b).rotated_vec a = b := by
  have hd1 : -1 ≤ a.dot b := by
    simp only [Vec3f64.dot] at ha hb ⊢
    nlinarith [mul_self_nonneg (a.x + b.x), mul_self_nonneg (a.y + b.y),
      mul_self_nonneg (a.z + b.z)]
  have hdge : (-0.99999 : ℝ) ≤ a.dot b := by
    by_contra hlt
    push_neg at hlt
    exact hnot ⟨by linarith, hlt⟩
  have hpos : 0 < 2 + 2 * a.dot b := by linarith
  have hMeq : (a.add b).x * (a.add b).x + (a.add b).y * (a.add b).y +
      (a.add b).z * (a.add b).z = 2 + 2 * a.dot b := by
    simp only [Vec3f64.add, Vec3f64.dot] at ha hb ⊢
    linear_combination ha + hb
  have hs : (a.add b).magnitude * (a.add b).magnitude = 2 + 2 * a.dot b := by
    rw [Vec3f64.magnitude, Real.mul_self_sqrt (by rw [hMeq]; linarith)]
    exact hMeq
  simp only [Rot3f64.new_exact]
  rw [if_neg hnot, new_div_eq, rotate_div_eq, rotate_new_formula, hs]
  dsimp only
  ext
  · rw [div_eq_iff (ne_of_gt hpos)]
    simp only [Vec3f64.dot, Vec3f64.add] at ha hb ⊢
    linear_combination
      ((a.x * a.x + a.y * a.y + a.z * a.z) * a.x +
        b.x * (2 * (a.x * a.x + a.y * a.y + a.z * a.z) + 2 +
          2 * (a.x * b.x + a.y * b.y + a.z * b.z))) * ha -
      ((a.x * a.x + a.y * a.y + a.z * a.z) * a.x) * hb
  · rw [div_eq_iff (ne_of_gt hpos)]
    simp only [Vec3f64.dot, Vec3f64.add] at ha hb ⊢
    linear_combination
      ((a.x * a.x + a.y * a.y + a.z * a.z) * a.y +
        b.y * (2 * (a.x * a.x + a.y * a.y + a.z * a.z) + 2 +
          2 * (a.x * b.x + a.y * b.y + a.z * b.z))) * ha -
      ((a.x * a.x + a.y * a.y + a.z * a.z) * a.y) * hb
  · rw [div_eq_iff (ne_of_gt hpos)]
    simp only [Vec3f64.dot, Vec3f64.add] at ha hb ⊢
    linear_combination
      ((a.x * a.x + a.y * a.y + a.z * a.z) * a.z +
        b.z * (2 * (a.x * a.x + a.y * a.y + a.z * a.z) + 2 +
          2 * (a.x * b.x + a.y * b.y + a.z * b.z))) * ha -
      ((a.x * a.x + a.y * a.y + a.z * a.z) * a.z) * hb

/-- Witness for claim C2 at the spec's example: `new_exact((1,0,0),(0,1,0))`
rotates `(1,0,0)` exactly onto `(0,1,0)` — a 90° rotation, not 180°. -/
theorem new_exact_single_angle_witness :
    (Rot3f64.new_exact (fun _ => ⟨0, 0, 1⟩) ⟨1, 0, 0⟩ ⟨0, 1, 0⟩).rotated_vec
      ⟨1, 0, 0⟩ = ⟨0, 1, 0⟩ :=
  new_exact_single_angle (fun _ => ⟨0, 0, 1⟩) ⟨1, 0, 0⟩ ⟨0, 1, 0⟩
    (by norm_num [Vec3f64.dot]) (by norm_num [Vec3f64.dot])
    (by norm_num [Vec3f64.dot])

/-- Claim C3: for every pair of vectors `a`, `b`, the rotor `new a b` has
components exactly `s = dot(b, a)`, `xy = b.x*a.y − b.y*a.x`,
`yz = b.y*a.z − b.z*a.y`, `zx = b.z*a.x − b.x*a.z`. -/
theorem new_components (a b : Vec3f64) :
    (Rot3f64.new a b).s = b.dot a ∧
    (Rot3f64.new a b).xy = b.x * a.y - b.y * a.x ∧
    (Rot3f64.new a b).yz = b.y * a.z - b.z * a.y ∧
    (Rot3f64.new a b).zx = b.z * a.x - b.x * a.z :=
  ⟨rfl, rfl, rfl, rfl⟩

/-- Claim C4: in the antiparallel case `a = (1,0,0)`, `b = (-1,0,0)` the
substituted bisector is the internally chosen perpendicular of `a`; for
EVERY choice of a unit vector perpendicular to `a`, `new_exact` yields a
rotor that rotates `(1,0,0)` exactly to `(-1,0,0)` (a 180° rotation, with
y and z components exactly 0). -/
theorem new_exact_antiparallel_180 (perp : Vec3f64 → Vec3f64)
    (h0 : (perp ⟨1, 0, 0⟩).dot ⟨1, 0, 0⟩ = 0)
    (h1 : (perp ⟨1, 0, 0⟩).dot (perp ⟨1, 0, 0⟩) = 1) :
    (Rot3f64.new_exact perp ⟨1, 0, 0⟩ ⟨-1, 0, 0⟩).rotated_vec ⟨1, 0, 0⟩ =
      ⟨-1, 0, 0⟩ := by
  have hcond : -1.00001 ≤ (Vec3f64.mk 1 0 0).dot ⟨-1, 0, 0⟩ ∧
      (Vec3f64.mk 1 0 0).dot ⟨-1, 0, 0⟩ < -0.99999 := by
    norm_num [Vec3f64.dot]
  rw [Rot3f64.new_exact, if_pos hcond, rotate_new_formula]
  simp only [Vec3f64.dot] at h0 h1 ⊢
  ext
  · linear_combination 2 * (perp ⟨1, 0, 0⟩).x * h0 - h1
  · linear_combination 2 * (perp ⟨1, 0, 0⟩).y * h0
  · linear_combination 2 * (perp ⟨1, 0, 0⟩).z * h0

/-- Witness for claim C4 with the concrete perpendicular `(0,0,1)`. -/
theorem new_exact_antiparallel_180_witness :
    (Rot3f64.new_exact (fun _ => ⟨0, 0, 1⟩) ⟨1, 0, 0⟩ ⟨-1, 0, 0⟩).rotated_vec
      ⟨1, 0, 0⟩ = ⟨-1, 0, 0⟩ :=
  new_exact_antiparallel_180 (fun _ => ⟨0, 0, 1⟩)
    (by norm_num [Vec3f64.dot]) (by norm_num [Vec3f64.dot])

/-- Claim C5: for a unit rotor, the 3x3 block of `rotation_mat()` has the
images of the standard basis vectors under the rotor as its three columns,
those columns are mutually orthogonal unit vectors, and the 4th row and
4th column both equal `(0,0,0,1)`. -/
theorem rotation_mat_columns_orthonormal (r : Rot3f64) (hr : r.mag_sqrd = 1) :
    (r.rotation_mat.col0 = r.rotated_vec ⟨1, 0, 0⟩ ∧
     r.rotation_mat.col1 = r.rotated_vec ⟨0, 1, 0⟩ ∧
     r.rotation_mat.col2 = r.rotated_vec ⟨0, 0, 1⟩) ∧
    (r.rotation_mat.col0.dot r.rotation_mat.col0 = 1 ∧
     r.rotation_mat.col1.dot r.rotation_mat.col1 = 1 ∧
     r.rotation_mat.col2.dot r.rotation_mat.col2 = 1 ∧
     r.rotation_mat.col0.dot r.rotation_mat.col1 = 0 ∧
     r.rotation_mat.col0.dot r.rotation_mat.col2 = 0 ∧
     r.rotation_mat.col1.dot r.rotation_mat.col2 = 0) ∧
    (r.rotation_mat.r3 = Vec4f64.new 0 0 0 1 ∧
     r.rotation_mat.r0.w = 0 ∧ r.rotation_mat.r1.w = 0 ∧
     r.rotation_mat.r2.w = 0 ∧ r.rotation_mat.r3.w = 1) := by
  refine ⟨⟨rfl, rfl, rfl⟩, ⟨?_, ?_, ?_, ?_, ?_, ?_⟩, ⟨rfl, rfl, rfl, rfl, rfl⟩⟩
  all_goals simp only [mag_sqrd] at hr
  all_goals simp only [rotation_mat, rotated_vec, rotate_vec,
    Mat4f64.new_row_major, Mat4f64.col0, Mat4f64.col1, Mat4f64.col2,
    Vec4f64.new, Vec3f64.dot]
  · linear_combination ((r.s * r.s + r.xy * r.xy + r.yz * r.yz + r.zx * r.zx) + 1) * hr
  · linear_combination ((r.s * r.s + r.xy * r.xy + r.yz * r.yz + r.zx * r.zx) + 1) * hr
  · linear_combination ((r.s * r.s + r.xy * r.xy + r.yz * r.yz + r.zx * r.zx) + 1) * hr
  · ring
  · ring
  · ring

/-- Witness for claim C5 at the identity rotor: the first column of the
exported matrix is a unit vector. -/
theorem rotation_mat_columns_orthonormal_witness :
    Rot3f64.identity.rotation_mat.col0.dot
      Rot3f64.identity.rotation_mat.col0 = 1 :=
  (rotation_mat_columns_orthonormal Rot3f64.identity
    (by norm_num [Rot3f64.mag_sqrd, Rot3f64.identity])).2.1.1

/-- Claim C6: `inverted`/`invert` negate exactly the three bivector
components and keep `s`, and for a unit rotor the inverted rotor undoes
the rotation: applying `r.inverted` after `r` returns the vector exactly. -/
theorem invert_negates_bivector_and_undoes (r : Rot3f64) (v : Vec3f64)
    (hr : r.mag_sqrd = 1) :
    (r.inverted.s = r.s ∧ r.inverted.xy = -r.xy ∧ r.inverted.yz = -r.yz ∧
      r.inverted.zx = -r.zx) ∧
    r.inverted.rotated_vec (r.rotated_vec v) = v := by
  refine ⟨⟨rfl, rfl, rfl, rfl⟩, ?_⟩
  simp only [mag_sqrd] at hr
  simp only [inverted, invert, rotated_vec, rotate_vec]
  ext
  · linear_combination
      ((r.s * r.s + r.xy * r.xy + r.yz * r.yz + r.zx * r.zx) + 1) * v.x * hr
  · linear_combination
      ((r.s * r.s + r.xy * r.xy + r.yz * r.yz + r.zx * r.zx) + 1) * v.y * hr
  · linear_combination
      ((r.s * r.s + r.xy * r.xy + r.yz * r.yz + r.zx * r.zx) + 1) * v.z * hr

/-- Witness for claim C6 at the identity rotor and `v = (1,2,3)`. -/
theorem invert_negates_bivector_and_undoes_witness :
    Rot3f64.identity.inverted.rotated_vec
      (Rot3f64.identity.rotated_vec ⟨1, 2, 3⟩) = ⟨1, 2, 3⟩ :=
  (invert_negates_bivector_and_undoes Rot3f64.identity ⟨1, 2, 3⟩
    (by norm_num [Rot3f64.mag_sqrd, Rot3f64.identity])).2

/-- Claim C7: for a rotor of nonzero magnitude, `normalize` rescales all
four components by `1 / sqrt(s² + xy² + yz² + zx²)` and afterwards
`s² + xy² + yz² + zx²` equals 1 exactly. -/
theorem normalize_restores_unit_norm (r : Rot3f64) (h : r.mag_sqrd ≠ 0) :
    (r.normalize.s = r.s / Real.sqrt r.mag_sqrd ∧
     r.normalize.xy = r.xy / Real.sqrt r.mag_sqrd ∧
     r.normalize.yz = r.yz / Real.sqrt r.mag_sqrd ∧
     r.normalize.zx = r.zx / Real.sqrt r.mag_sqrd) ∧
    r.normalize.mag_sqrd = 1 := by
  have hM : 0 ≤ r.mag_sqrd := by
    simp only [mag_sqrd]
    linarith [mul_self_nonneg r.s, mul_self_nonneg r.xy,
      mul_self_nonneg r.yz, mul_self_nonneg r.zx]
  have hs : Real.sqrt r.mag_sqrd * Real.sqrt r.mag_sqrd = r.mag_sqrd :=
    Real.mul_self_sqrt hM
  refine ⟨⟨rfl, rfl, rfl, rfl⟩, ?_⟩
  have hre : r.normalize.mag_sqrd =
      r.mag_sqrd / (Real.sqrt r.mag_sqrd * Real.sqrt r.mag_sqrd) := by
    simp only [Rot3f64.normalize, mag_sqrd]
    ring
  rw [hre, hs, div_self h]

/-- Witness for claim C7 at the identity rotor. -/
theorem normalize_restores_unit_norm_witness :
    Rot3f64.identity.normalize.mag_sqrd = 1 :=
  (normalize_restores_unit_norm Rot3f64.identity
    (by norm_num [Rot3f64.mag_sqrd, Rot3f64.identity])).2

/-- Claim C8: for a unit vector `a`, the rotor `new a a` leaves every
vector unchanged exactly. -/
theorem new_same_vector_is_identity (a v : Vec3f64) (ha : a.dot a = 1) :
    (Rot3f64.new a a).rotated_vec v = v := by
  simp only [Vec3f64.dot] at ha
  simp only [Rot3f64.new, Rot3f64.rotated_vec, Rot3f64.rotate_vec]
  ext
  · linear_combination ((a.x * a.x + a.y * a.y + a.z * a.z) + 1) * v.x * ha
  · linear_combination ((a.x * a.x + a.y * a.y + a.z * a.z) + 1) * v.y * ha
  · linear_combination ((a.x * a.x + a.y * a.y + a.z * a.z) + 1) * v.z * ha

/-- Witness for claim C8 at the spec's example `a = (1,0,0)`,
`v = (1,1,1)`. -/
theorem new_same_vector_is_identity_witness :
    (Rot3f64.new ⟨1, 0, 0⟩ ⟨1, 0, 0⟩).rotated_vec ⟨1, 1, 1⟩ = ⟨1, 1, 1⟩ :=
  new_same_vector_is_identity ⟨1, 0, 0⟩ ⟨1, 1, 1⟩ (by norm_num [Vec3f64.dot])

/-- Claim C9: in the IEEE-754 model, normalizing the zero vector makes all
three components NaN, and normalizing the zero rotor makes all four
components NaN; both functions are total and return plain values — no
check, panic or error value exists in the source. -/
theorem degenerate_normalize_nan :
    Vec3f64F.normalize ⟨FP.val 0, FP.val 0, FP.val 0⟩ =
      ⟨FP.nan, FP.nan, FP.nan⟩ ∧
    Rot3f64F.normalize ⟨FP.val 0, FP.val 0, FP.val 0, FP.val 0⟩ =
      ⟨FP.nan, FP.nan, FP.nan, FP.nan⟩ := by
  constructor
  · simp only [Vec3f64F.normalize, Vec3f64F.magnitude, FP.mul, FP.add,
      FP.sqrt, FP.div]
    norm_num
  · simp only [Rot3f64F.normalize, FP.mul, FP.add, FP.sqrt, FP.div]
    norm_num

/-- Claim C10: the squared magnitude `s² + xy² + yz² + zx²` of
`r1.appended r2` is exactly the product of the squared magnitudes of `r1`
and `r2`; in particular appending a unit rotor to a unit rotor yields
exactly a unit rotor. -/
theorem append_multiplies_mag_sqrd (r1 r2 : Rot3f64) :
    (r1.appended r2).mag_sqrd = r1.mag_sqrd * r2.mag_sqrd ∧
    (r1.mag_sqrd = 1 → r2.mag_sqrd = 1 → (r1.appended r2).mag_sqrd = 1) := by
  have hmul : (r1.appended r2).mag_sqrd = r1.mag_sqrd * r2.mag_sqrd := by
    simp only [mag_sqrd, appended, append]
    ring
  exact ⟨hmul, fun h1 h2 => by rw [hmul, h1, h2, one_mul]⟩

/-- Witness for claim C10 at two identity rotors. -/
theorem append_multiplies_mag_sqrd_witness :
    (Rot3f64.identity.appended Rot3f64.identity).mag_sqrd = 1 :=
  (append_multiplies_mag_sqrd Rot3f64.identity Rot3f64.identity).2
    (by norm_num [Rot3f64.mag_sqrd, Rot3f64.identity])
    (by norm_num [Rot3f64.mag_sqrd, Rot3f64.identity])

end Chikage
